import Mathlib

/-!
Verification of the Radiolla offline-first synchronization engine.

The definitions below are a shallow embedding of the TypeScript sources:

* `src/services/syncService.ts` — merge engine (`mergeStations`), pending-change
  queue (`addPendingChange`, `removePendingChange`), queue drain
  (`processPendingChanges`), retry executor (`withRetry`), and the sync
  orchestrator (`syncStations`).
* the station serializer module — `serialize` / `deserialize`.

Conventions used throughout:

* A JS `Map` (insertion ordered, `set` on an existing key keeps the original
  insertion position and replaces the value) is embedded as an association
  list `List (String × Station)`.
* JSON text is embedded at the parsed-value level by the inductive `Json`;
  `JSON.parse` of a non-JSON string is represented by the input `none` to
  `deserialize`, and `JSON.parse (JSON.stringify v)` is the identity on
  values, so the serializer round trip is stated on `Json` values.
* Asynchronous effects are made explicit: remote-call outcomes become
  parameters (`PushOutcome`, `RemoteResult`), the sleeps of the retry
  executor are returned as an instrumented list of delays, and the mutable
  sync state becomes the returned final `SyncState` of a run.
-/

namespace Radiolla

/-- Station record: `{ id, name, url }`, all strings
(`src/client/context` Station type). -/
structure Station where
  id : String
  name : String
  url : String
deriving DecidableEq, Repr

/-- JS `String.prototype.toLowerCase`: the per-character lowercase mapping,
written over the character list so that it is kernel-computable. -/
def jsToLower (s : String) : String :=
  ⟨s.data.map Char.toLower⟩

/-- JS `String.prototype.trim`: drop whitespace from both ends, written
over the character list so that it is kernel-computable. -/
def jsTrim (s : String) : String :=
  ⟨((s.data.dropWhile Char.isWhitespace).reverse.dropWhile Char.isWhitespace).reverse⟩

/-- Normalized URL used as merge identity: `station.url.toLowerCase().trim()`. -/
def normalizeUrl (url : String) : String :=
  jsTrim (jsToLower url)

/-- The JS `Map<string, Station>` of `mergeStations`, embedded as an
insertion-ordered association list. -/
abbrev UrlMap := List (String × Station)

/-- `map.has(k)`. -/
def mapHas (m : UrlMap) (k : String) : Bool :=
  m.any (fun p => p.1 == k)

/-- `map.set(k, v)`: if the key is present the value is replaced in place
(keeping the original insertion position), otherwise the pair is appended. -/
def mapSet (m : UrlMap) (k : String) (v : Station) : UrlMap :=
  if mapHas m k then
    m.map (fun p => if p.1 == k then (p.1, v) else p)
  else
    m ++ [(k, v)]

/-- `map.get(k)` (first — and with unique keys, the only — entry). -/
def lookupKey (m : UrlMap) (k : String) : Option Station :=
  (m.find? (fun p => p.1 == k)).map (fun p => p.2)

/-- `mergeStations(local, cloud)` from `src/services/syncService.ts`:
insert every local station keyed by normalized URL, then insert each cloud
station only if its normalized URL is not already present, and return the
map values. -/
def mergeStations (localStations cloudStations : List Station) : List Station :=
  (cloudStations.foldl
    (fun m station =>
      if mapHas m (normalizeUrl station.url) then m
      else mapSet m (normalizeUrl station.url) station)
    (localStations.foldl
      (fun m station => mapSet m (normalizeUrl station.url) station) [])).map (fun p => p.2)

/-- Invariant of the merge map: each entry's key is the normalized URL of
its value. -/
def KeyedByUrl (m : UrlMap) : Prop :=
  ∀ p ∈ m, p.1 = normalizeUrl p.2.url

/-- Invariant of the merge map: keys are pairwise distinct. -/
def NodupKeys (m : UrlMap) : Prop :=
  (m.map (fun p => p.1)).Nodup

/-! ### Station serializer (`serialize` / `deserialize`) -/

/-- Parsed JSON values (the result of `JSON.parse`). -/
inductive Json where
  | null
  | bool (b : Bool)
  | num (n : Int)
  | str (s : String)
  | arr (elems : List Json)
  | obj (fields : List (String × Json))

/-- JS property read `j[k]` as performed on a `JSON.parse` result: only
objects carry the accessed properties (duplicate keys: the last one wins);
on every other value the read yields `undefined`, embedded as `none`. -/
def jsGetField : Json → String → Option Json
  | Json.obj fields, k => (fields.reverse.find? (fun p => p.1 == k)).map (fun p => p.2)
  | _, _ => none

/-- The guard `typeof station === 'object' && station !== null`: in JS both
arrays and plain objects have `typeof` `'object'`; `null` also does but is
excluded by the explicit null check. -/
def isJsObjectNonNull : Json → Bool
  | Json.arr _ => true
  | Json.obj _ => true
  | _ => false

/-- `JSON.stringify` of one station at the value level: an object with
exactly the fields `id`, `name`, `url`. -/
def stationToJson (s : Station) : Json :=
  Json.obj [("id", Json.str s.id), ("name", Json.str s.name), ("url", Json.str s.url)]

/-- `serialize(stations) = JSON.stringify(stations)`, at the value level. -/
def serialize (stations : List Station) : Json :=
  Json.arr (stations.map stationToJson)

/-- The per-element validation of `deserialize` at index `i`: the object
check and the three `typeof station.f !== 'string'` checks, in source
order; on success the projection `{ id, name, url }` (this fuses the
source's validation loop with its final `map`, which reads the same three
fields — all other fields are dropped). -/
def validateStation (i : Nat) (j : Json) : Except String Station :=
  if isJsObjectNonNull j = false then
    Except.error s!"Invalid station at index {i}: expected an object"
  else
    match jsGetField j "id" with
    | some (Json.str idv) =>
      match jsGetField j "name" with
      | some (Json.str namev) =>
        match jsGetField j "url" with
        | some (Json.str urlv) => Except.ok ⟨idv, namev, urlv⟩
        | _ => Except.error s!"Invalid station at index {i}: missing or invalid url field"
      | _ => Except.error s!"Invalid station at index {i}: missing or invalid name field"
    | _ => Except.error s!"Invalid station at index {i}: missing or invalid id field"

/-- The validation loop of `deserialize` over the parsed array, reporting
the first failing index. -/
def validateStations : Nat → List Json → Except String (List Station)
  | _, [] => Except.ok []
  | i, j :: rest =>
    match validateStation i j with
    | Except.error msg => Except.error msg
    | Except.ok s =>
      match validateStations (i + 1) rest with
      | Except.error msg => Except.error msg
      | Except.ok ss => Except.ok (s :: ss)

/-- `deserialize(json)`: the input is the outcome of `JSON.parse`
(`none` = the parse threw, caught by the surrounding `try`); a non-array
value and invalid elements yield the structured `{ error }` result,
embedded as `Except.error`. -/
def deserialize : Option Json → Except String (List Station)
  | none => Except.error "Invalid JSON: failed to parse"
  | some j =>
    match j with
    | Json.arr elems => validateStations 0 elems
    | _ => Except.error "Invalid format: expected an array of stations"

/-- An array element the deserializer's validation loop rejects: not an
object in the JS sense (`typeof !== 'object'` or `null`), or one of `id`,
`name`, `url` missing (`undefined`) or not a string. -/
def badElement (j : Json) : Prop :=
  isJsObjectNonNull j = false ∨
  (∀ v, jsGetField j "id" ≠ some (Json.str v)) ∨
  (∀ v, jsGetField j "name" ≠ some (Json.str v)) ∨
  (∀ v, jsGetField j "url" ≠ some (Json.str v))

/-! ### Pending-change queue -/

/-- Change type of a pending change. -/
inductive ChangeType where
  | add
  | update
  | delete
deriving DecidableEq, Repr

/-- `PendingChange`: `{ id, type, station, timestamp }` (epoch millis). -/
structure PendingChange where
  id : String
  type : ChangeType
  station : Station
  timestamp : Nat
deriving DecidableEq, Repr

/-- `addPendingChange(change)` on a given queue: find the first entry with
the same `station.id`; coalesce `add`+`delete` to nothing, `add`+`update`
to `{...change, type: 'add'}` in place, any other combination to the
incoming change in place; with no existing entry, append. (The source's
`findIndex` / `splice` / index assignment is rendered as structural
recursion to the first matching entry.) -/
def addPendingChange : List PendingChange → PendingChange → List PendingChange
  | [], change => [change]
  | existing :: rest, change =>
    if existing.station.id = change.station.id then
      if existing.type = ChangeType.add ∧ change.type = ChangeType.delete then
        rest
      else if existing.type = ChangeType.add ∧ change.type = ChangeType.update then
        { change with type := ChangeType.add } :: rest
      else
        change :: rest
    else
      existing :: addPendingChange rest change

/-- A queue built by a sequence of `addPendingChange` calls from the empty
queue. -/
def enqueueAll (ops : List PendingChange) : List PendingChange :=
  ops.foldl addPendingChange []

/-- Invariant I1: pairwise-distinct `station.id`s in the queue. -/
def UniqueStationIds (q : List PendingChange) : Prop :=
  q.Pairwise (fun a b => a.station.id ≠ b.station.id)

/-- The queue entries carrying a given `station.id`. -/
def entriesFor (q : List PendingChange) (sid : String) : List PendingChange :=
  q.filter (fun x => x.station.id == sid)

/-- `removePendingChange(changeId)`: keep the entries whose change id
differs. -/
def removePendingChange (q : List PendingChange) (changeId : String) : List PendingChange :=
  q.filter (fun c => c.id != changeId)

/-! ### Queue drain (`processPendingChanges`) -/

/-- Outcome of `pushStationChange` for one queued change (after its
internal retries): success, a thrown network-classified error, or a thrown
non-network error. -/
inductive PushOutcome where
  | success
  | networkError
  | otherError
deriving DecidableEq, Repr

/-- Result of a drain run: the final stored queue, the entries attempted in
processing order (instrumentation), and whether the drain re-threw a
network-classified error. -/
structure DrainResult where
  queue : List PendingChange
  attempted : List PendingChange
  networkAborted : Bool
deriving DecidableEq, Repr

/-- The sort `[...pendingChanges].sort((a, b) => a.timestamp - b.timestamp)`
(a stable ascending sort on `timestamp`). -/
def sortByTimestamp (q : List PendingChange) : List PendingChange :=
  q.mergeSort (fun a b => decide (a.timestamp ≤ b.timestamp))

/-- The `for` loop of `processPendingChanges` over the sorted snapshot,
threading the stored queue: on success remove the change by id and
continue; on a network-classified error re-throw (stop); on any other
error log and continue without touching the queue. -/
def drainLoop (push : PendingChange → PushOutcome) :
    List PendingChange → List PendingChange → DrainResult
  | [], q => ⟨q, [], false⟩
  | c :: rest, q =>
    match push c with
    | PushOutcome.success =>
      let r := drainLoop push rest (removePendingChange q c.id)
      ⟨r.queue, c :: r.attempted, r.networkAborted⟩
    | PushOutcome.networkError => ⟨q, [c], true⟩
    | PushOutcome.otherError =>
      let r := drainLoop push rest q
      ⟨r.queue, c :: r.attempted, r.networkAborted⟩

/-- `processPendingChanges(userId)` with the per-change push outcome made
explicit: early return on an empty queue, otherwise drain the
timestamp-sorted snapshot. -/
def processPendingChanges (push : PendingChange → PushOutcome)
    (q : List PendingChange) : DrainResult :=
  if q.isEmpty then ⟨q, [], false⟩
  else drainLoop push (sortByTimestamp q) q

/-- The entries a drain over the processing-order list `l` attempts: every
entry until the first network-classified push failure, inclusive. -/
def attemptedOf (push : PendingChange → PushOutcome) (l : List PendingChange) :
    List PendingChange :=
  l.takeWhile (fun c => push c != PushOutcome.networkError) ++
    (l.dropWhile (fun c => push c != PushOutcome.networkError)).take 1

/-- The change ids a drain over the processing-order list `l` removes from
the stored queue: the ids of the attempted entries whose push succeeded. -/
def successIds (push : PendingChange → PushOutcome) (l : List PendingChange) :
    List String :=
  ((attemptedOf push l).filter (fun c => push c == PushOutcome.success)).map (fun c => c.id)

/-! ### Retry executor (`withRetry`) -/

/-- `syncConfig.maxRetries`. -/
def syncConfigMaxRetries : Nat := 3

/-- `syncConfig.baseRetryDelay` (milliseconds). -/
def syncConfigBaseRetryDelay : Nat := 1000

/-- The retry loop of `withRetry`, from attempt number `attempt` with
`fuel` further attempts allowed after the current one. `op n` is the
outcome of the `n`-th invocation of `operation` (0-based). Returns the
final outcome together with the instrumented list of backoff sleeps
(`baseDelay * 2 ^ attempt` before each retry; the number of invocations
performed is one more than the number of sleeps). -/
def retryGo {E A : Type} (op : Nat → Except E A) (baseDelay : Nat) :
    Nat → Nat → Except E A × List Nat
  | attempt, fuel =>
    match op attempt with
    | Except.ok a => (Except.ok a, [])
    | Except.error e =>
      match fuel with
      | 0 => (Except.error e, [])
      | fuel' + 1 =>
        let r := retryGo op baseDelay (attempt + 1) fuel'
        (r.1, baseDelay * 2 ^ attempt :: r.2)

/-- `withRetry(operation, maxRetries, baseDelay)`: run the loop
`for (attempt = 0; attempt <= maxRetries; attempt++)`, sleeping
`baseDelay * 2 ^ attempt` after every failed attempt except the last, and
returning the last attempt's error if all fail. -/
def withRetry {E A : Type} (op : Nat → Except E A)
    (maxRetries baseDelay : Nat) : Except E A × List Nat :=
  retryGo op baseDelay 0 maxRetries

/-! ### Sync orchestrator (`syncStations`) -/

/-- Sync state. -/
inductive SyncState where
  | idle
  | syncing
  | synced
  | error
  | offline
deriving DecidableEq, Repr

/-- Outcome of one remote operation (`downloadStations`, `uploadStations`),
after its internal retries: a value, or a thrown error carrying whether
`isNetworkError` classifies it as network-related, plus its message. -/
inductive RemoteResult (α : Type) where
  | ok (a : α)
  | err (network : Bool) (msg : String)
deriving DecidableEq, Repr

/-- `SyncResult` of `syncStations`. -/
structure SyncResult where
  success : Bool
  error : Option String
  mergedStations : List Station
deriving DecidableEq, Repr

/-- The offline failure message of `syncStations`. -/
def offlineErrorMsg : String :=
  "Unable to connect. Check your internet connection."

/-- `syncStations(localStations, userId)` with its effects made explicit:
`push`/`pending` drive the initial `processPendingChanges` drain (whose
thrown errors are always network-classified), `download` is the
`downloadStations` outcome and `upload` the `uploadStations` outcome.
Returns the `SyncResult` together with the sync state the run ends in
(the run begins by setting state `syncing`; every return path then sets
the returned final state). -/
def syncStations (push : PendingChange → PushOutcome)
    (pending : List PendingChange)
    (download : RemoteResult (List Station))
    (upload : RemoteResult Unit)
    (localStations : List Station) : SyncResult × SyncState :=
  if (processPendingChanges push pending).networkAborted then
    -- the drain re-threw a network error: caught by the outer handler
    (⟨false, some offlineErrorMsg, localStations⟩, SyncState.offline)
  else
    match download with
    | RemoteResult.err network msg =>
      if network then
        (⟨false, some offlineErrorMsg, localStations⟩, SyncState.offline)
      else
        -- re-thrown, caught by the outer handler as a non-network error
        (⟨false, some msg, localStations⟩, SyncState.error)
    | RemoteResult.ok cloudStations =>
      if localStations.isEmpty ∧ cloudStations.isEmpty then
        (⟨true, none, []⟩, SyncState.synced)
      else if ¬localStations.isEmpty ∧ cloudStations.isEmpty then
        match upload with
        | RemoteResult.ok _ => (⟨true, none, localStations⟩, SyncState.synced)
        | RemoteResult.err network msg =>
          if network then (⟨false, some offlineErrorMsg, localStations⟩, SyncState.offline)
          else (⟨false, some msg, localStations⟩, SyncState.error)
      else if localStations.isEmpty ∧ ¬cloudStations.isEmpty then
        (⟨true, none, cloudStations⟩, SyncState.synced)
      else
        let merged := mergeStations localStations cloudStations
        match upload with
        | RemoteResult.ok _ => (⟨true, none, merged⟩, SyncState.synced)
        | RemoteResult.err network msg =>
          if network then (⟨false, some offlineErrorMsg, localStations⟩, SyncState.offline)
          else (⟨false, some msg, localStations⟩, SyncState.error)

/-! ### Merge engine lemmas -/

lemma lookupKey_nil (u : String) : lookupKey [] u = none := rfl

lemma lookupKey_cons (p : String × Station) (m : UrlMap) (u : String) :
    lookupKey (p :: m) u = if p.1 == u then some p.2 else lookupKey m u := by
  by_cases h : (p.1 == u) = true
  · simp [lookupKey, List.find?_cons, h]
  · simp only [Bool.not_eq_true] at h
    simp [lookupKey, List.find?_cons, h]

lemma mapHas_eq_isSome (m : UrlMap) (k : String) :
    mapHas m k = (lookupKey m k).isSome := by
  induction m with
  | nil => rfl
  | cons p m ih =>
    rw [lookupKey_cons]
    by_cases h : (p.1 == k) = true
    · simp [mapHas, h]
    · simp only [Bool.not_eq_true] at h
      simp [mapHas, h, ← ih]

lemma lookupKey_append (m₁ m₂ : UrlMap) (u : String) :
    lookupKey (m₁ ++ m₂) u = (lookupKey m₁ u).or (lookupKey m₂ u) := by
  induction m₁ with
  | nil => simp [lookupKey_nil]
  | cons p m ih =>
    rw [List.cons_append, lookupKey_cons, lookupKey_cons]
    by_cases h : (p.1 == u) = true
    · simp [h]
    · simp only [Bool.not_eq_true] at h
      simp [h, ih]

lemma lookupKey_map_replace_ne (m : UrlMap) (k : String) (v : Station) (u : String)
    (huk : u ≠ k) :
    lookupKey (m.map (fun p => if p.1 == k then (p.1, v) else p)) u = lookupKey m u := by
  induction m with
  | nil => rfl
  | cons p m ih =>
    have hfst : (if p.1 == k then (p.1, v) else p).1 = p.1 := by
      by_cases h : (p.1 == k) = true <;> simp [h]
    rw [List.map_cons, lookupKey_cons, lookupKey_cons, hfst]
    by_cases hpu : (p.1 == u) = true
    · have hpk : (p.1 == k) = false := by
        rw [beq_iff_eq] at hpu
        rw [beq_eq_false_iff_ne, hpu]
        exact huk
      simp [hpu, hpk]
    · simp only [Bool.not_eq_true] at hpu
      rw [hpu]
      simp only [Bool.false_eq_true, if_false]
      exact ih

lemma lookupKey_map_replace_eq (m : UrlMap) (k : String) (v : Station)
    (hk : mapHas m k = true) :
    lookupKey (m.map (fun p => if p.1 == k then (p.1, v) else p)) k = some v := by
  induction m with
  | nil => simp [mapHas] at hk
  | cons p m ih =>
    have hfst : (if p.1 == k then (p.1, v) else p).1 = p.1 := by
      by_cases h : (p.1 == k) = true <;> simp [h]
    rw [List.map_cons, lookupKey_cons, hfst]
    by_cases h : (p.1 == k) = true
    · simp [h]
    · simp only [Bool.not_eq_true] at h
      have hm : mapHas m k = true := by
        simpa [mapHas, h] using hk
      rw [h]
      simp only [Bool.false_eq_true, if_false]
      exact ih hm

lemma lookupKey_none_of_not_has (m : UrlMap) (k : String)
    (hk : mapHas m k = false) : lookupKey m k = none := by
  have := mapHas_eq_isSome m k
  rw [hk] at this
  exact Option.not_isSome_iff_eq_none.mp (by simp [← this])

lemma lookupKey_mapSet (m : UrlMap) (k : String) (v : Station) (u : String) :
    lookupKey (mapSet m k v) u = if u = k then some v else lookupKey m u := by
  unfold mapSet
  by_cases hk : mapHas m k = true
  · rw [if_pos hk]
    by_cases huk : u = k
    · subst huk
      rw [if_pos rfl]
      exact lookupKey_map_replace_eq m u v hk
    · rw [if_neg huk]
      exact lookupKey_map_replace_ne m k v u huk
  · simp only [Bool.not_eq_true] at hk
    rw [if_neg (by simp [hk]), lookupKey_append]
    by_cases huk : u = k
    · subst huk
      rw [lookupKey_none_of_not_has m u hk, if_pos rfl, Option.none_or, lookupKey_cons]
      simp
    · rw [if_neg huk, lookupKey_cons]
      have hku : (k == u) = false := by
        rw [beq_eq_false_iff_ne]
        exact fun h => huk h.symm
      rw [hku]
      simp [lookupKey_nil]

/-- Lookup after the local-insertion phase: the last matching local
station wins, falling back to the accumulator. -/
lemma lookupKey_localFold (l : List Station) (m : UrlMap) (u : String) :
    lookupKey (l.foldl (fun m station => mapSet m (normalizeUrl station.url) station) m) u
      = (l.reverse.find? (fun s => normalizeUrl s.url == u)).or (lookupKey m u) := by
  induction l generalizing m with
  | nil => simp
  | cons s l ih =>
    rw [List.foldl_cons, ih, List.reverse_cons, List.find?_append, Option.or_assoc]
    congr 1
    rw [lookupKey_mapSet]
    by_cases h : u = normalizeUrl s.url
    · have : (normalizeUrl s.url == u) = true := by simp [h]
      simp [List.find?_cons, this, h]
    · have : (normalizeUrl s.url == u) = false := by
        simp
        exact fun hh => h hh.symm
      simp [List.find?_cons, this, h]

/-- Lookup after the cloud-insertion phase: an existing key is untouched,
otherwise the first matching cloud station is adopted. -/
lemma lookupKey_cloudFold (c : List Station) (m : UrlMap) (u : String) :
    lookupKey (c.foldl
        (fun m station =>
          if mapHas m (normalizeUrl station.url) then m
          else mapSet m (normalizeUrl station.url) station) m) u
      = (lookupKey m u).or (c.find? (fun s => normalizeUrl s.url == u)) := by
  induction c generalizing m with
  | nil => simp
  | cons s c ih =>
    rw [List.foldl_cons]
    by_cases hhas : mapHas m (normalizeUrl s.url) = true
    · rw [if_pos hhas, ih]
      by_cases h : u = normalizeUrl s.url
      · have hs : (lookupKey m u).isSome = true := by
          rw [← mapHas_eq_isSome, h]; exact hhas
        obtain ⟨w, hw⟩ := Option.isSome_iff_exists.mp hs
        rw [hw]
        simp
      · have hne : (normalizeUrl s.url == u) = false := by
          simp
          exact fun hh => h hh.symm
        rw [List.find?_cons, hne]
    · simp only [Bool.not_eq_true] at hhas
      rw [if_neg (by simp [hhas]), ih, lookupKey_mapSet]
      by_cases h : u = normalizeUrl s.url
      · rw [if_pos h, List.find?_cons]
        have he : (normalizeUrl s.url == u) = true := by simp [h]
        rw [he, h, lookupKey_none_of_not_has m _ hhas, Option.none_or]
        simp
      · rw [if_neg h, List.find?_cons]
        have hne : (normalizeUrl s.url == u) = false := by
          simp
          exact fun hh => h hh.symm
        rw [hne]

lemma keyedByUrl_mapSet {m : UrlMap} (v : Station) (h : KeyedByUrl m) :
    KeyedByUrl (mapSet m (normalizeUrl v.url) v) := by
  intro p hp
  unfold mapSet at hp
  by_cases hk : mapHas m (normalizeUrl v.url) = true
  · rw [if_pos hk] at hp
    obtain ⟨q, hq, hfq⟩ := List.mem_map.mp hp
    by_cases hqk : (q.1 == normalizeUrl v.url) = true
    · rw [if_pos hqk] at hfq
      rw [beq_iff_eq] at hqk
      rw [← hfq]
      simpa using hqk
    · simp only [Bool.not_eq_true] at hqk
      rw [hqk] at hfq
      simp only [Bool.false_eq_true, if_false] at hfq
      rw [← hfq]
      exact h q hq
  · rw [if_neg hk] at hp
    rcases List.mem_append.mp hp with hp | hp
    · exact h p hp
    · have := List.mem_singleton.mp hp
      rw [this]

lemma keyedByUrl_localFold (l : List Station) (m : UrlMap) (h : KeyedByUrl m) :
    KeyedByUrl (l.foldl (fun m station => mapSet m (normalizeUrl station.url) station) m) := by
  induction l generalizing m with
  | nil => exact h
  | cons s l ih => exact ih _ (keyedByUrl_mapSet s h)

lemma keyedByUrl_cloudFold (c : List Station) (m : UrlMap) (h : KeyedByUrl m) :
    KeyedByUrl (c.foldl
      (fun m station =>
        if mapHas m (normalizeUrl station.url) then m
        else mapSet m (normalizeUrl station.url) station) m) := by
  induction c generalizing m with
  | nil => exact h
  | cons s c ih =>
    rw [List.foldl_cons]
    by_cases hk : mapHas m (normalizeUrl s.url) = true
    · rw [if_pos hk]
      exact ih _ h
    · rw [if_neg hk]
      exact ih _ (keyedByUrl_mapSet s h)

lemma keys_mapSet_of_has {m : UrlMap} {k : String} (v : Station) (hk : mapHas m k = true) :
    (mapSet m k v).map (fun p => p.1) = m.map (fun p => p.1) := by
  unfold mapSet
  rw [if_pos hk, List.map_map]
  apply List.map_congr_left
  intro p _
  simp only [Function.comp_apply]
  by_cases h : (p.1 == k) = true
  · rw [if_pos h]
  · rw [if_neg h]

lemma keys_mapSet_of_not_has {m : UrlMap} {k : String} (v : Station)
    (hk : ¬ mapHas m k = true) :
    (mapSet m k v).map (fun p => p.1) = m.map (fun p => p.1) ++ [k] := by
  unfold mapSet
  rw [if_neg hk]
  simp

lemma not_mem_keys_of_not_has {m : UrlMap} {k : String} (hk : ¬ mapHas m k = true) :
    k ∉ m.map (fun p => p.1) := by
  intro hmem
  apply hk
  unfold mapHas
  rw [List.any_eq_true]
  obtain ⟨p, hp, hpk⟩ := List.mem_map.mp hmem
  exact ⟨p, hp, by simp [hpk]⟩

lemma nodupKeys_mapSet {m : UrlMap} (k : String) (v : Station) (h : NodupKeys m) :
    NodupKeys (mapSet m k v) := by
  unfold NodupKeys
  by_cases hk : mapHas m k = true
  · rw [keys_mapSet_of_has v hk]
    exact h
  · rw [keys_mapSet_of_not_has v hk, List.nodup_append]
    refine ⟨h, List.nodup_singleton k, ?_⟩
    intro a ha hb
    rw [List.mem_singleton] at hb
    subst hb
    exact not_mem_keys_of_not_has hk ha

lemma nodupKeys_localFold (l : List Station) (m : UrlMap) (h : NodupKeys m) :
    NodupKeys (l.foldl (fun m station => mapSet m (normalizeUrl station.url) station) m) := by
  induction l generalizing m with
  | nil => exact h
  | cons s l ih => exact ih _ (nodupKeys_mapSet _ s h)

lemma nodupKeys_cloudFold (c : List Station) (m : UrlMap) (h : NodupKeys m) :
    NodupKeys (c.foldl
      (fun m station =>
        if mapHas m (normalizeUrl station.url) then m
        else mapSet m (normalizeUrl station.url) station) m) := by
  induction c generalizing m with
  | nil => exact h
  | cons s c ih =>
    rw [List.foldl_cons]
    by_cases hk : mapHas m (normalizeUrl s.url) = true
    · rw [if_pos hk]
      exact ih _ h
    · rw [if_neg hk]
      exact ih _ (nodupKeys_mapSet _ s h)

lemma mem_mapSet {m : UrlMap} {k : String} {v : Station} {p : String × Station}
    (hp : p ∈ mapSet m k v) : p ∈ m ∨ p.2 = v := by
  unfold mapSet at hp
  by_cases hk : mapHas m k = true
  · rw [if_pos hk] at hp
    obtain ⟨q, hq, hfq⟩ := List.mem_map.mp hp
    by_cases hqk : (q.1 == k) = true
    · rw [if_pos hqk] at hfq
      right
      rw [← hfq]
    · simp only [Bool.not_eq_true] at hqk
      rw [hqk] at hfq
      simp only [Bool.false_eq_true, if_false] at hfq
      left
      rw [← hfq]
      exact hq
  · rw [if_neg hk] at hp
    rcases List.mem_append.mp hp with hp | hp
    · left; exact hp
    · right
      have := List.mem_singleton.mp hp
      rw [this]

lemma mem_localFold {l : List Station} {m : UrlMap} {p : String × Station}
    (hp : p ∈ l.foldl (fun m station => mapSet m (normalizeUrl station.url) station) m) :
    p ∈ m ∨ p.2 ∈ l := by
  induction l generalizing m with
  | nil => left; exact hp
  | cons s l ih =>
    rw [List.foldl_cons] at hp
    rcases ih hp with h | h
    · rcases mem_mapSet h with h | h
      · left; exact h
      · right
        rw [h]
        exact List.mem_cons_self _ _
    · right
      exact List.mem_cons_of_mem _ h

lemma mem_cloudFold {c : List Station} {m : UrlMap} {p : String × Station}
    (hp : p ∈ c.foldl
      (fun m station =>
        if mapHas m (normalizeUrl station.url) then m
        else mapSet m (normalizeUrl station.url) station) m) :
    p ∈ m ∨ p.2 ∈ c := by
  induction c generalizing m with
  | nil => left; exact hp
  | cons s c ih =>
    rw [List.foldl_cons] at hp
    by_cases hk : mapHas m (normalizeUrl s.url) = true
    · rw [if_pos hk] at hp
      rcases ih hp with h | h
      · left; exact h
      · right; exact List.mem_cons_of_mem _ h
    · rw [if_neg hk] at hp
      rcases ih hp with h | h
      · rcases mem_mapSet h with h | h
        · left; exact h
        · right
          rw [h]
          exact List.mem_cons_self _ _
      · right
        exact List.mem_cons_of_mem _ h

lemma find?_values_eq_lookupKey {m : UrlMap} (h : KeyedByUrl m) (u : String) :
    (m.map (fun p => p.2)).find? (fun s => normalizeUrl s.url == u) = lookupKey m u := by
  induction m with
  | nil => rfl
  | cons p m ih =>
    have hkey : p.1 = normalizeUrl p.2.url := h p (List.mem_cons_self _ _)
    have hrest : KeyedByUrl m := fun q hq => h q (List.mem_cons_of_mem _ hq)
    rw [List.map_cons, List.find?_cons, lookupKey_cons, hkey]
    cases ht : (normalizeUrl p.2.url == u) with
    | true => simp [ht]
    | false =>
      simp only [ht, Bool.false_eq_true, if_false]
      exact ih hrest

lemma values_normUrls_eq_keys {m : UrlMap} (h : KeyedByUrl m) :
    (m.map (fun p => p.2)).map (fun s => normalizeUrl s.url) = m.map (fun p => p.1) := by
  rw [List.map_map]
  apply List.map_congr_left
  intro p hp
  exact (h p hp).symm

lemma mem_keys_iff_isSome {m : UrlMap} {u : String} :
    u ∈ m.map (fun p => p.1) ↔ (lookupKey m u).isSome = true := by
  rw [← mapHas_eq_isSome]
  unfold mapHas
  rw [List.any_eq_true]
  constructor
  · intro hmem
    obtain ⟨p, hp, hpk⟩ := List.mem_map.mp hmem
    exact ⟨p, hp, by simp [hpk]⟩
  · rintro ⟨p, hp, hpk⟩
    rw [beq_iff_eq] at hpk
    exact List.mem_map.mpr ⟨p, hp, hpk⟩

lemma keyedByUrl_mergeMap (localStations cloudStations : List Station) :
    KeyedByUrl (cloudStations.foldl
      (fun m station =>
        if mapHas m (normalizeUrl station.url) then m
        else mapSet m (normalizeUrl station.url) station)
      (localStations.foldl
        (fun m station => mapSet m (normalizeUrl station.url) station) [])) :=
  keyedByUrl_cloudFold _ _
    (keyedByUrl_localFold _ _ (fun p hp => absurd hp (List.not_mem_nil p)))

lemma lookupKey_mergeMap (localStations cloudStations : List Station) (u : String) :
    lookupKey (cloudStations.foldl
      (fun m station =>
        if mapHas m (normalizeUrl station.url) then m
        else mapSet m (normalizeUrl station.url) station)
      (localStations.foldl
        (fun m station => mapSet m (normalizeUrl station.url) station) [])) u
      = (localStations.reverse.find? (fun s => normalizeUrl s.url == u)).or
          (cloudStations.find? (fun s => normalizeUrl s.url == u)) := by
  rw [lookupKey_cloudFold, lookupKey_localFold, lookupKey_nil, Option.or_none]

/-- C1: the normalized URLs of `mergeStations(local, cloud)` are pairwise
distinct, and their set is the union of the normalized URLs of `local` and
of `cloud`. -/
theorem c1_merge_urls_distinct_and_union (localStations cloudStations : List Station) :
    ((mergeStations localStations cloudStations).map (fun s => normalizeUrl s.url)).Nodup ∧
    ∀ u, u ∈ (mergeStations localStations cloudStations).map (fun s => normalizeUrl s.url) ↔
      (u ∈ localStations.map (fun s => normalizeUrl s.url) ∨
       u ∈ cloudStations.map (fun s => normalizeUrl s.url)) := by
  have hkeyed := keyedByUrl_mergeMap localStations cloudStations
  have hnodup : NodupKeys (cloudStations.foldl
      (fun m station =>
        if mapHas m (normalizeUrl station.url) then m
        else mapSet m (normalizeUrl station.url) station)
      (localStations.foldl
        (fun m station => mapSet m (normalizeUrl station.url) station) [])) :=
    nodupKeys_cloudFold _ _ (nodupKeys_localFold _ _ List.nodup_nil)
  constructor
  · rw [mergeStations, values_normUrls_eq_keys hkeyed]
    exact hnodup
  · intro u
    rw [mergeStations, values_normUrls_eq_keys hkeyed, mem_keys_iff_isSome,
      lookupKey_mergeMap, Option.isSome_or]
    simp [List.find?_isSome, List.mem_reverse, List.mem_map]

/-- C2 (counterexample): with two distinct local stations sharing one
normalized URL and a cloud station on the same URL, the merged entry is
the second local station, so it does not equal the first local station
`sa` even though `sa` is in `local` and shares `sb`'s normalized URL —
refuting the claim's universal quantification over every such `sa`. -/
theorem c2_counterexample_first_local_duplicate_not_kept :
    (⟨"1", "A", "u"⟩ : Station) ∈ ([⟨"1", "A", "u"⟩, ⟨"2", "B", "u"⟩] : List Station) ∧
    (⟨"3", "C", "u"⟩ : Station) ∈ ([⟨"3", "C", "u"⟩] : List Station) ∧
    normalizeUrl (Station.url ⟨"1", "A", "u"⟩) = normalizeUrl (Station.url ⟨"3", "C", "u"⟩) ∧
    mergeStations [⟨"1", "A", "u"⟩, ⟨"2", "B", "u"⟩] [⟨"3", "C", "u"⟩] = [⟨"2", "B", "u"⟩] ∧
    (⟨"1", "A", "u"⟩ : Station) ∉
      mergeStations [⟨"1", "A", "u"⟩, ⟨"2", "B", "u"⟩] [⟨"3", "C", "u"⟩] := by
  refine ⟨by simp, by simp, rfl, by decide, by decide⟩

/-- C2 (amended): for every `sa` in `local` and `sb` in `cloud` with equal
normalized URL, if `sa` is the last station of `local` carrying that
normalized URL then the merged entry carrying it equals `sa`
field-for-field (local priority: the local `id` and `name` are kept). -/
theorem c2_merge_local_priority (localStations cloudStations : List Station)
    (sa sb : Station) (ha : sa ∈ localStations) (hb : sb ∈ cloudStations)
    (hu : normalizeUrl sa.url = normalizeUrl sb.url)
    (hlast : localStations.reverse.find?
      (fun s => normalizeUrl s.url == normalizeUrl sa.url) = some sa) :
    (mergeStations localStations cloudStations).find?
      (fun s => normalizeUrl s.url == normalizeUrl sa.url) = some sa := by
  rw [mergeStations, find?_values_eq_lookupKey (keyedByUrl_mergeMap _ _),
    lookupKey_mergeMap, hlast]
  rfl

/-- C2 witness: a concrete local/cloud pair on which the amended local
priority theorem applies. -/
theorem c2_merge_local_priority_witness :
    (⟨"1", "A", "u"⟩ : Station) ∈ ([⟨"1", "A", "u"⟩] : List Station) ∧
    (⟨"2", "B", "u"⟩ : Station) ∈ ([⟨"2", "B", "u"⟩] : List Station) ∧
    (mergeStations [⟨"1", "A", "u"⟩] [⟨"2", "B", "u"⟩]).find?
      (fun s => normalizeUrl s.url == normalizeUrl (Station.url ⟨"1", "A", "u"⟩)) =
      some ⟨"1", "A", "u"⟩ :=
  ⟨by simp, by simp,
    c2_merge_local_priority [⟨"1", "A", "u"⟩] [⟨"2", "B", "u"⟩] ⟨"1", "A", "u"⟩ ⟨"2", "B", "u"⟩
      (by simp) (by simp) rfl (by decide)⟩

/-- C10: duplicate resolution inside each input list is asymmetric — the
last local occurrence of a normalized URL wins, the first cloud occurrence
wins when the URL is absent from `local` — and every merged element is an
unmodified element of one of the two inputs. -/
theorem c10_merge_duplicate_resolution :
    (∀ (localStations cloudStations : List Station) (u : String) (sa : Station),
      localStations.reverse.find? (fun s => normalizeUrl s.url == u) = some sa →
      (mergeStations localStations cloudStations).find?
        (fun s => normalizeUrl s.url == u) = some sa) ∧
    (∀ (localStations cloudStations : List Station) (u : String) (sb : Station),
      (∀ s ∈ localStations, normalizeUrl s.url ≠ u) →
      cloudStations.find? (fun s => normalizeUrl s.url == u) = some sb →
      (mergeStations localStations cloudStations).find?
        (fun s => normalizeUrl s.url == u) = some sb) ∧
    (∀ (localStations cloudStations : List Station) (s : Station),
      s ∈ mergeStations localStations cloudStations →
      s ∈ localStations ∨ s ∈ cloudStations) := by
  refine ⟨?_, ?_, ?_⟩
  · intro localStations cloudStations u sa hlast
    rw [mergeStations, find?_values_eq_lookupKey (keyedByUrl_mergeMap _ _),
      lookupKey_mergeMap, hlast]
    rfl
  · intro localStations cloudStations u sb hnone hfirst
    have hpre : localStations.reverse.find? (fun s => normalizeUrl s.url == u) = none := by
      rw [List.find?_eq_none]
      intro x hx
      simp only [beq_iff_eq]
      exact hnone x (List.mem_reverse.mp hx)
    rw [mergeStations, find?_values_eq_lookupKey (keyedByUrl_mergeMap _ _),
      lookupKey_mergeMap, hpre, Option.none_or, hfirst]
  · intro localStations cloudStations s hs
    rw [mergeStations] at hs
    obtain ⟨p, hp, hps⟩ := List.mem_map.mp hs
    rcases mem_cloudFold hp with h | h
    · rcases mem_localFold h with h | h
      · exact absurd h (List.not_mem_nil p)
      · left
        rw [← hps]
        exact h
    · right
      rw [← hps]
      exact h

/-- C10 witness: concrete inputs exercising all three parts — local
duplicates resolve to the last occurrence, cloud duplicates (URL absent
locally) resolve to the first occurrence, and outputs are input
elements. -/
theorem c10_merge_duplicate_resolution_witness :
    (mergeStations [⟨"1", "A", "u"⟩, ⟨"2", "B", "u"⟩] []).find?
      (fun s => normalizeUrl s.url == normalizeUrl "u") = some ⟨"2", "B", "u"⟩ ∧
    (mergeStations [] [⟨"3", "C", "v"⟩, ⟨"4", "D", "v"⟩]).find?
      (fun s => normalizeUrl s.url == normalizeUrl "v") = some ⟨"3", "C", "v"⟩ ∧
    ((⟨"2", "B", "u"⟩ : Station) ∈ ([⟨"1", "A", "u"⟩, ⟨"2", "B", "u"⟩] : List Station) ∨
      (⟨"2", "B", "u"⟩ : Station) ∈ ([] : List Station)) :=
  ⟨c10_merge_duplicate_resolution.1 [⟨"1", "A", "u"⟩, ⟨"2", "B", "u"⟩] []
      (normalizeUrl "u") ⟨"2", "B", "u"⟩ (by decide),
    c10_merge_duplicate_resolution.2.1 [] [⟨"3", "C", "v"⟩, ⟨"4", "D", "v"⟩]
      (normalizeUrl "v") ⟨"3", "C", "v"⟩ (by simp) (by decide),
    c10_merge_duplicate_resolution.2.2 [⟨"1", "A", "u"⟩, ⟨"2", "B", "u"⟩] []
      ⟨"2", "B", "u"⟩ (by decide)⟩

/-! ### Serializer lemmas -/

lemma validateStation_stationToJson (i : Nat) (s : Station) :
    validateStation i (stationToJson s) = Except.ok s := rfl

lemma validateStations_map (x : List Station) :
    ∀ i, validateStations i (x.map stationToJson) = Except.ok x := by
  induction x with
  | nil => intro i; rfl
  | cons s x ih =>
    intro i
    rw [List.map_cons]
    simp [validateStations, validateStation_stationToJson, ih (i + 1)]

lemma validateStation_ok_iff (i : Nat) (j : Json) (s : Station) :
    validateStation i j = Except.ok s ↔
      (isJsObjectNonNull j = true ∧
       jsGetField j "id" = some (Json.str s.id) ∧
       jsGetField j "name" = some (Json.str s.name) ∧
       jsGetField j "url" = some (Json.str s.url)) := by
  obtain ⟨sid, sname, surl⟩ := s
  unfold validateStation
  by_cases hobj : isJsObjectNonNull j = false
  · rw [if_pos hobj, hobj]
    simp
  · rw [if_neg hobj]
    have hobj' : isJsObjectNonNull j = true := by
      revert hobj
      cases isJsObjectNonNull j <;> simp
    rw [hobj']
    rcases hid : jsGetField j "id" with _ | jv
    · simp
    · rcases jv with _ | b | n | v1 | elems | fields <;> simp
      rcases hname : jsGetField j "name" with _ | nv
      · simp
      · rcases nv with _ | b | n | v2 | elems | fields <;> simp
        rcases hurl : jsGetField j "url" with _ | uv
        · simp
        · rcases uv with _ | b | n | v3 | elems | fields <;> simp

lemma validateStation_error_of_bad {j : Json} (i : Nat) (h : badElement j) :
    ∃ msg, validateStation i j = Except.error msg := by
  cases hv : validateStation i j with
  | error msg => exact ⟨msg, rfl⟩
  | ok s =>
    exfalso
    rw [validateStation_ok_iff] at hv
    obtain ⟨hobj, hid, hname, hurl⟩ := hv
    rcases h with h | h | h | h
    · rw [hobj] at h
      cases h
    · exact h _ hid
    · exact h _ hname
    · exact h _ hurl

lemma validateStations_error_of_mem {elems : List Json} {j : Json} (hj : j ∈ elems)
    (hbad : badElement j) (i : Nat) :
    ∃ msg, validateStations i elems = Except.error msg := by
  induction elems generalizing i with
  | nil => cases hj
  | cons e rest ih =>
    rcases List.mem_cons.mp hj with rfl | hj'
    · obtain ⟨msg, hmsg⟩ := validateStation_error_of_bad i hbad
      exact ⟨msg, by simp [validateStations, hmsg]⟩
    · cases hv : validateStation i e with
      | error msg => exact ⟨msg, by simp [validateStations, hv]⟩
      | ok s =>
        obtain ⟨msg, hmsg⟩ := ih hj' (i + 1)
        exact ⟨msg, by simp [validateStations, hv, hmsg]⟩

lemma validateStations_ok {elems : List Json} :
    ∀ {i : Nat} {l : List Station}, validateStations i elems = Except.ok l →
      l.length = elems.length ∧
      ∀ n j, elems.get? n = some j →
        ∃ s, l.get? n = some s ∧ validateStation (i + n) j = Except.ok s := by
  induction elems with
  | nil =>
    intro i l h
    have : l = [] := by
      simpa [validateStations] using h.symm
    subst this
    refine ⟨rfl, ?_⟩
    intro n j hj
    simp at hj
  | cons e rest ih =>
    intro i l h
    rcases hv : validateStation i e with msg | s
    · rw [validateStations, hv] at h
      cases h
    · rcases hr : validateStations (i + 1) rest with msg | ss
      · rw [validateStations, hv, hr] at h
        cases h
      · rw [validateStations, hv, hr] at h
        injection h with h
        subst h
        obtain ⟨hlen, hpt⟩ := ih hr
        refine ⟨by simp [hlen], ?_⟩
        intro n j hj
        cases n with
        | zero =>
          simp only [List.get?_cons_zero, Option.some.injEq] at hj
          subst hj
          exact ⟨s, by simp, by rw [Nat.add_zero]; exact hv⟩
        | succ n =>
          simp only [List.get?_cons_succ] at hj
          obtain ⟨s', hs', hvs'⟩ := hpt n j hj
          refine ⟨s', by simpa using hs', ?_⟩
          have : i + 1 + n = i + (n + 1) := by omega
          rw [← this]
          exact hvs'

/-- C3: the serializer round trip — deserializing the serialization of any
valid station list succeeds and yields the same list, field-for-field, in
the same order. -/
theorem c3_serialize_roundtrip (x : List Station) :
    deserialize (some (serialize x)) = Except.ok x :=
  validateStations_map x 0

/-- C4: `deserialize` is a total function returning a structured error —
never an exception — on unparseable input, a non-array value, or any
element that is not an object or lacks string `id`/`name`/`url` fields;
and on success every output station consists of exactly the three fields
`id`, `name`, `url` read from the corresponding input element (extra
fields are dropped). -/
theorem c4_deserialize_error_handling :
    (deserialize none = Except.error "Invalid JSON: failed to parse") ∧
    (∀ j : Json, (∀ elems, j ≠ Json.arr elems) →
      deserialize (some j) = Except.error "Invalid format: expected an array of stations") ∧
    (∀ (elems : List Json) (j : Json), j ∈ elems → badElement j →
      ∃ msg, deserialize (some (Json.arr elems)) = Except.error msg) ∧
    (∀ (elems : List Json) (l : List Station),
      deserialize (some (Json.arr elems)) = Except.ok l →
      l.length = elems.length ∧
      ∀ n j, elems.get? n = some j →
        ∃ s, l.get? n = some s ∧
          isJsObjectNonNull j = true ∧
          jsGetField j "id" = some (Json.str s.id) ∧
          jsGetField j "name" = some (Json.str s.name) ∧
          jsGetField j "url" = some (Json.str s.url)) := by
  refine ⟨rfl, ?_, ?_, ?_⟩
  · intro j hj
    cases j with
    | arr elems => exact absurd rfl (hj elems)
    | null => rfl
    | bool b => rfl
    | num n => rfl
    | str s => rfl
    | obj fields => rfl
  · intro elems j hj hbad
    exact validateStations_error_of_mem hj hbad 0
  · intro elems l h
    obtain ⟨hlen, hpt⟩ := @validateStations_ok elems 0 l h
    refine ⟨hlen, ?_⟩
    intro n j hj
    obtain ⟨s, hs, hv⟩ := hpt n j hj
    rw [validateStation_ok_iff] at hv
    exact ⟨s, hs, hv.1, hv.2.1, hv.2.2.1, hv.2.2.2⟩

/-- C4 witness: concrete inputs exercising each error case and a concrete
successful input whose extra field is dropped. -/
theorem c4_deserialize_error_handling_witness :
    (deserialize (some (Json.num 3)) =
      Except.error "Invalid format: expected an array of stations") ∧
    (∃ msg, deserialize (some (Json.arr [Json.null])) = Except.error msg) ∧
    (∃ s, ([⟨"a", "b", "c"⟩] : List Station).get? 0 = some s ∧
      isJsObjectNonNull (Json.obj [("id", Json.str "a"), ("name", Json.str "b"),
        ("url", Json.str "c"), ("extra", Json.num 7)]) = true ∧
      jsGetField (Json.obj [("id", Json.str "a"), ("name", Json.str "b"),
        ("url", Json.str "c"), ("extra", Json.num 7)]) "id" = some (Json.str s.id) ∧
      jsGetField (Json.obj [("id", Json.str "a"), ("name", Json.str "b"),
        ("url", Json.str "c"), ("extra", Json.num 7)]) "name" = some (Json.str s.name) ∧
      jsGetField (Json.obj [("id", Json.str "a"), ("name", Json.str "b"),
        ("url", Json.str "c"), ("extra", Json.num 7)]) "url" = some (Json.str s.url)) := by
  refine ⟨?_, ?_, ?_⟩
  · exact c4_deserialize_error_handling.2.1 (Json.num 3) (fun _ h => Json.noConfusion h)
  · exact c4_deserialize_error_handling.2.2.1 [Json.null] Json.null
      (List.mem_singleton.mpr rfl) (Or.inl rfl)
  · have h := (c4_deserialize_error_handling.2.2.2
      [Json.obj [("id", Json.str "a"), ("name", Json.str "b"),
        ("url", Json.str "c"), ("extra", Json.num 7)]]
      [⟨"a", "b", "c"⟩] rfl).2 0 _ rfl
    exact h

/-! ### Pending-change queue lemmas -/

lemma addPendingChange_no_match {q : List PendingChange} {c : PendingChange}
    (h : ∀ x ∈ q, x.station.id ≠ c.station.id) :
    addPendingChange q c = q ++ [c] := by
  induction q with
  | nil => rfl
  | cons x q ih =>
    simp only [addPendingChange]
    rw [if_neg (h x (List.mem_cons_self _ _)),
      ih (fun y hy => h y (List.mem_cons_of_mem _ hy)), List.cons_append]

lemma addPendingChange_append (q₁ q₂ : List PendingChange) (e c : PendingChange)
    (h₁ : ∀ x ∈ q₁, x.station.id ≠ c.station.id)
    (he : e.station.id = c.station.id) :
    addPendingChange (q₁ ++ e :: q₂) c =
      if e.type = ChangeType.add ∧ c.type = ChangeType.delete then q₁ ++ q₂
      else if e.type = ChangeType.add ∧ c.type = ChangeType.update then
        q₁ ++ { c with type := ChangeType.add } :: q₂
      else q₁ ++ c :: q₂ := by
  induction q₁ with
  | nil =>
    simp only [List.nil_append, addPendingChange]
    rw [if_pos he]
  | cons x q₁ ih =>
    have hx := h₁ x (List.mem_cons_self _ _)
    simp only [List.cons_append, addPendingChange, List.append_eq]
    rw [if_neg hx, ih (fun y hy => h₁ y (List.mem_cons_of_mem _ hy))]
    split_ifs <;> rfl

lemma ids_of_addPendingChange {q : List PendingChange} {c x : PendingChange}
    (hx : x ∈ addPendingChange q c) :
    x ∈ q ∨ x.station.id = c.station.id := by
  induction q with
  | nil =>
    simp only [addPendingChange, List.mem_singleton] at hx
    right
    rw [hx]
  | cons y q ih =>
    by_cases hy : y.station.id = c.station.id
    · simp only [addPendingChange] at hx
      rw [if_pos hy] at hx
      split_ifs at hx with h1 h2
      · left
        exact List.mem_cons_of_mem _ hx
      · rcases List.mem_cons.mp hx with rfl | hx
        · right; rfl
        · left
          exact List.mem_cons_of_mem _ hx
      · rcases List.mem_cons.mp hx with rfl | hx
        · right; rfl
        · left
          exact List.mem_cons_of_mem _ hx
    · simp only [addPendingChange] at hx
      rw [if_neg hy] at hx
      rcases List.mem_cons.mp hx with rfl | hx
      · left
        exact List.mem_cons_self _ _
      · rcases ih hx with h | h
        · left
          exact List.mem_cons_of_mem _ h
        · right
          exact h

lemma uniqueStationIds_addPendingChange {q : List PendingChange} (c : PendingChange)
    (hq : UniqueStationIds q) : UniqueStationIds (addPendingChange q c) := by
  induction q with
  | nil =>
    simp [addPendingChange, UniqueStationIds]
  | cons x q ih =>
    obtain ⟨hx, hq'⟩ := List.pairwise_cons.mp hq
    by_cases hxc : x.station.id = c.station.id
    · simp only [addPendingChange]
      rw [if_pos hxc]
      split_ifs with h1 h2
      · exact hq'
      · rw [UniqueStationIds, List.pairwise_cons]
        exact ⟨fun y hy => hxc ▸ hx y hy, hq'⟩
      · rw [UniqueStationIds, List.pairwise_cons]
        exact ⟨fun y hy => hxc ▸ hx y hy, hq'⟩
    · simp only [addPendingChange]
      rw [if_neg hxc, UniqueStationIds, List.pairwise_cons]
      refine ⟨?_, ih hq'⟩
      intro y hy
      rcases ids_of_addPendingChange hy with h | h
      · exact hx y h
      · rw [h]
        exact fun hc => hxc hc

lemma uniqueStationIds_enqueueAll (ops : List PendingChange) :
    UniqueStationIds (enqueueAll ops) := by
  have key : ∀ (ops q : List PendingChange), UniqueStationIds q →
      UniqueStationIds (ops.foldl addPendingChange q) := by
    intro ops
    induction ops with
    | nil => exact fun q hq => hq
    | cons c ops ih =>
      intro q hq
      exact ih _ (uniqueStationIds_addPendingChange c hq)
  exact key ops [] List.Pairwise.nil

lemma entriesFor_addPendingChange {q : List PendingChange} {c e : PendingChange}
    (hq : UniqueStationIds q)
    (hfind : q.find? (fun x => x.station.id == c.station.id) = some e) :
    entriesFor (addPendingChange q c) c.station.id =
      if e.type = ChangeType.add ∧ c.type = ChangeType.delete then []
      else if e.type = ChangeType.add ∧ c.type = ChangeType.update then
        [{ c with type := ChangeType.add }]
      else [c] := by
  induction q with
  | nil => cases hfind
  | cons x q ih =>
    obtain ⟨hx, hq'⟩ := List.pairwise_cons.mp hq
    by_cases hxc : x.station.id = c.station.id
    · have hbeq : (x.station.id == c.station.id) = true := by simp [hxc]
      rw [List.find?_cons, hbeq] at hfind
      injection hfind with hfind
      subst hfind
      have hqnone : entriesFor q c.station.id = [] := by
        rw [entriesFor, List.filter_eq_nil_iff]
        intro y hy
        simp only [beq_iff_eq]
        exact fun h => (hx y hy) (hxc.trans h.symm)
      simp only [addPendingChange]
      rw [if_pos hxc]
      split_ifs with h1 h2
      · exact hqnone
      · rw [entriesFor, List.filter_cons, if_pos (by simp)]
        rw [entriesFor] at hqnone
        rw [hqnone]
      · rw [entriesFor, List.filter_cons, if_pos (by simp)]
        rw [entriesFor] at hqnone
        rw [hqnone]
    · have hbeq : (x.station.id == c.station.id) = false := by simp [hxc]
      rw [List.find?_cons, hbeq] at hfind
      simp only [addPendingChange]
      rw [if_neg hxc, entriesFor, List.filter_cons, if_neg (by simp [hxc])]
      rw [entriesFor] at ih
      exact ih hq' hfind

lemma sorted_sortByTimestamp (q : List PendingChange) :
    List.Sorted (fun a b : PendingChange => a.timestamp ≤ b.timestamp)
      (sortByTimestamp q) := by
  have htrans : ∀ a b c : PendingChange,
      decide (a.timestamp ≤ b.timestamp) = true →
      decide (b.timestamp ≤ c.timestamp) = true →
      decide (a.timestamp ≤ c.timestamp) = true := by
    intro a b c hab hbc
    simp only [decide_eq_true_eq] at hab hbc ⊢
    omega
  have htotal : ∀ a b : PendingChange,
      (decide (a.timestamp ≤ b.timestamp) || decide (b.timestamp ≤ a.timestamp)) = true := by
    intro a b
    rcases Nat.le_total a.timestamp b.timestamp with h | h <;> simp [h]
  have h := List.sorted_mergeSort htrans htotal q
  exact h.imp (fun hab => by simpa using hab)

/-- C5: starting from an empty queue, every sequence of enqueues keeps at
most one entry per `station.id` (invariant I1), maintained by the
coalescing rules — existing `add` + incoming `delete` removes both,
existing `add` + incoming `update` leaves exactly one `add` entry with the
update's payload, and any other combination leaves exactly the incoming
change in place of the existing entry; with no existing entry the incoming
change is appended. -/
theorem c5_queue_coalescing :
    (∀ ops : List PendingChange, UniqueStationIds (enqueueAll ops)) ∧
    (∀ (q₁ q₂ : List PendingChange) (e c : PendingChange),
      (∀ x ∈ q₁, x.station.id ≠ c.station.id) → e.station.id = c.station.id →
      addPendingChange (q₁ ++ e :: q₂) c =
        if e.type = ChangeType.add ∧ c.type = ChangeType.delete then q₁ ++ q₂
        else if e.type = ChangeType.add ∧ c.type = ChangeType.update then
          q₁ ++ { c with type := ChangeType.add } :: q₂
        else q₁ ++ c :: q₂) ∧
    (∀ (q : List PendingChange) (c e : PendingChange), UniqueStationIds q →
      q.find? (fun x => x.station.id == c.station.id) = some e →
      entriesFor (addPendingChange q c) c.station.id =
        if e.type = ChangeType.add ∧ c.type = ChangeType.delete then []
        else if e.type = ChangeType.add ∧ c.type = ChangeType.update then
          [{ c with type := ChangeType.add }]
        else [c]) ∧
    (∀ (q : List PendingChange) (c : PendingChange),
      (∀ x ∈ q, x.station.id ≠ c.station.id) →
      addPendingChange q c = q ++ [c]) :=
  ⟨uniqueStationIds_enqueueAll,
    addPendingChange_append,
    fun _ _ _ hq hf => entriesFor_addPendingChange hq hf,
    fun _ _ h => addPendingChange_no_match h⟩

/-- C5 witness: concrete queues exercising the coalescing rules — an
`add` followed by a `delete` for the same station empties the queue, an
`add` followed by an `update` leaves one `add` entry with the update's
payload, and a fresh change is appended. -/
theorem c5_queue_coalescing_witness :
    addPendingChange [⟨"p1", ChangeType.add, ⟨"s", "N", "u"⟩, 1⟩]
      ⟨"p2", ChangeType.delete, ⟨"s", "N", "u"⟩, 2⟩ = [] ∧
    entriesFor (addPendingChange [⟨"p1", ChangeType.add, ⟨"s", "N", "u"⟩, 1⟩]
      ⟨"p3", ChangeType.update, ⟨"s", "N", "u"⟩, 3⟩) "s" =
      [⟨"p3", ChangeType.add, ⟨"s", "N", "u"⟩, 3⟩] ∧
    addPendingChange [] ⟨"p2", ChangeType.delete, ⟨"s", "N", "u"⟩, 2⟩ =
      [⟨"p2", ChangeType.delete, ⟨"s", "N", "u"⟩, 2⟩] := by
  refine ⟨?_, ?_, ?_⟩
  · have h := c5_queue_coalescing.2.1 [] []
      ⟨"p1", ChangeType.add, ⟨"s", "N", "u"⟩, 1⟩
      ⟨"p2", ChangeType.delete, ⟨"s", "N", "u"⟩, 2⟩ (by simp) rfl
    rw [if_pos ⟨rfl, rfl⟩] at h
    simpa using h
  · have h := c5_queue_coalescing.2.2.1
      [⟨"p1", ChangeType.add, ⟨"s", "N", "u"⟩, 1⟩]
      ⟨"p3", ChangeType.update, ⟨"s", "N", "u"⟩, 3⟩
      ⟨"p1", ChangeType.add, ⟨"s", "N", "u"⟩, 1⟩
      (by simp [UniqueStationIds]) (by rfl)
    rw [if_neg (by rintro ⟨-, h2⟩; cases h2), if_pos ⟨rfl, rfl⟩] at h
    exact h
  · exact c5_queue_coalescing.2.2.2 [] ⟨"p2", ChangeType.delete, ⟨"s", "N", "u"⟩, 2⟩
      (by simp)

/-- C9: coalescing an incoming `update` onto an existing `add` keeps only
the `type` field of the old entry — the resulting single entry carries the
update's change id, timestamp and station payload — and the drain's sort
orders entries by that (new) timestamp field. -/
theorem c9_coalesced_update_takes_update_id_and_timestamp
    (q₁ q₂ : List PendingChange) (e c : PendingChange)
    (h₁ : ∀ x ∈ q₁, x.station.id ≠ c.station.id)
    (he : e.station.id = c.station.id)
    (hadd : e.type = ChangeType.add) (hupd : c.type = ChangeType.update) :
    addPendingChange (q₁ ++ e :: q₂) c =
      q₁ ++ { c with type := ChangeType.add } :: q₂ ∧
    ({ c with type := ChangeType.add } : PendingChange).id = c.id ∧
    ({ c with type := ChangeType.add } : PendingChange).timestamp = c.timestamp ∧
    ({ c with type := ChangeType.add } : PendingChange).station = c.station ∧
    ∀ q : List PendingChange,
      List.Sorted (fun a b : PendingChange => a.timestamp ≤ b.timestamp)
        (sortByTimestamp q) := by
  refine ⟨?_, rfl, rfl, rfl, sorted_sortByTimestamp⟩
  rw [addPendingChange_append q₁ q₂ e c h₁ he,
    if_neg (by rintro ⟨-, h2⟩; rw [hupd] at h2; cases h2), if_pos ⟨hadd, hupd⟩]

/-- C9 witness: a concrete `add`-then-`update` coalescing where the
resulting entry carries the update's id `"p3"` and timestamp `3`. -/
theorem c9_coalesced_update_witness :
    addPendingChange [⟨"p1", ChangeType.add, ⟨"s", "N", "u"⟩, 1⟩]
      ⟨"p3", ChangeType.update, ⟨"s", "N", "u"⟩, 3⟩ =
      [⟨"p3", ChangeType.add, ⟨"s", "N", "u"⟩, 3⟩] ∧
    (⟨"p3", ChangeType.add, ⟨"s", "N", "u"⟩, 3⟩ : PendingChange).id = "p3" ∧
    (⟨"p3", ChangeType.add, ⟨"s", "N", "u"⟩, 3⟩ : PendingChange).timestamp = 3 := by
  have h := c9_coalesced_update_takes_update_id_and_timestamp [] []
    ⟨"p1", ChangeType.add, ⟨"s", "N", "u"⟩, 1⟩
    ⟨"p3", ChangeType.update, ⟨"s", "N", "u"⟩, 3⟩
    (by simp) rfl rfl rfl
  exact ⟨by simpa using h.1, rfl, rfl⟩

/-! ### Queue drain lemmas -/

lemma attemptedOf_cons_continue {push : PendingChange → PushOutcome}
    {c : PendingChange} (h : (push c != PushOutcome.networkError) = true)
    (rest : List PendingChange) :
    attemptedOf push (c :: rest) = c :: attemptedOf push rest := by
  rw [attemptedOf, attemptedOf, List.takeWhile_cons, if_pos h, List.dropWhile_cons,
    if_pos h, List.cons_append]

lemma attemptedOf_cons_network {push : PendingChange → PushOutcome}
    {c : PendingChange} (h : push c = PushOutcome.networkError)
    (rest : List PendingChange) :
    attemptedOf push (c :: rest) = [c] := by
  have hb : (push c != PushOutcome.networkError) = false := by rw [h]; rfl
  rw [attemptedOf, List.takeWhile_cons, List.dropWhile_cons, hb]
  simp

lemma drainLoop_attempted (push : PendingChange → PushOutcome) :
    ∀ (l q : List PendingChange),
      (drainLoop push l q).attempted = attemptedOf push l := by
  intro l
  induction l with
  | nil => intro q; rfl
  | cons c rest ih =>
    intro q
    cases hp : push c with
    | success =>
      rw [attemptedOf_cons_continue (by rw [hp]; rfl) rest]
      simp only [drainLoop, hp]
      rw [ih]
    | networkError =>
      rw [attemptedOf_cons_network hp rest]
      simp only [drainLoop, hp]
    | otherError =>
      rw [attemptedOf_cons_continue (by rw [hp]; rfl) rest]
      simp only [drainLoop, hp]
      rw [ih]

lemma successIds_cons_success {push : PendingChange → PushOutcome}
    {c : PendingChange} (h : push c = PushOutcome.success)
    (rest : List PendingChange) :
    successIds push (c :: rest) = c.id :: successIds push rest := by
  rw [successIds, successIds, attemptedOf_cons_continue (by rw [h]; rfl) rest,
    List.filter_cons, if_pos (by rw [h]; rfl), List.map_cons]

lemma successIds_cons_other {push : PendingChange → PushOutcome}
    {c : PendingChange} (h : push c = PushOutcome.otherError)
    (rest : List PendingChange) :
    successIds push (c :: rest) = successIds push rest := by
  rw [successIds, successIds, attemptedOf_cons_continue (by rw [h]; rfl) rest,
    List.filter_cons, if_neg (by rw [h]; simp)]

lemma successIds_cons_network {push : PendingChange → PushOutcome}
    {c : PendingChange} (h : push c = PushOutcome.networkError)
    (rest : List PendingChange) :
    successIds push (c :: rest) = [] := by
  rw [successIds, attemptedOf_cons_network h rest, List.filter_cons,
    if_neg (by rw [h]; simp)]
  rfl

lemma drainLoop_queue (push : PendingChange → PushOutcome) :
    ∀ (l q : List PendingChange),
      (drainLoop push l q).queue =
        q.filter (fun x => !(successIds push l).contains x.id) := by
  intro l
  induction l with
  | nil =>
    intro q
    have hfun : (fun x : PendingChange => !(successIds push []).contains x.id) =
        (fun _ : PendingChange => true) := rfl
    rw [hfun, List.filter_true]
    rfl
  | cons c rest ih =>
    intro q
    cases hp : push c with
    | success =>
      simp only [drainLoop, hp]
      rw [ih (removePendingChange q c.id), removePendingChange, List.filter_filter,
        successIds_cons_success hp rest]
      apply List.filter_congr
      intro x _
      rw [List.contains_cons]
      cases hxc : x.id == c.id <;>
        cases hcont : (successIds push rest).contains x.id <;> simp [hxc, hcont]
      · intro h
        rw [h] at hxc
        simp at hxc
      · exact beq_iff_eq.mp hxc
    | networkError =>
      simp only [drainLoop, hp]
      rw [successIds_cons_network hp rest]
      have hfun : (fun x : PendingChange => !(([] : List String)).contains x.id) =
          (fun _ : PendingChange => true) := rfl
      rw [hfun, List.filter_true]
    | otherError =>
      simp only [drainLoop, hp]
      rw [ih q, successIds_cons_other hp rest]

lemma drainLoop_networkAborted (push : PendingChange → PushOutcome) :
    ∀ (l q : List PendingChange),
      (drainLoop push l q).networkAborted =
        l.any (fun c => push c == PushOutcome.networkError) := by
  intro l
  induction l with
  | nil => intro q; rfl
  | cons c rest ih =>
    intro q
    cases hp : push c with
    | success => simp [drainLoop, hp, List.any_cons, ih]
    | networkError => simp [drainLoop, hp, List.any_cons]
    | otherError => simp [drainLoop, hp, List.any_cons, ih]

lemma attemptedOf_prefix (push : PendingChange → PushOutcome) (l : List PendingChange) :
    ∃ n, attemptedOf push l = l.take n := by
  refine ⟨(l.takeWhile (fun c => push c != PushOutcome.networkError)).length + 1, ?_⟩
  have h := @List.take_append _
    (l.takeWhile (fun c => push c != PushOutcome.networkError))
    (l.dropWhile (fun c => push c != PushOutcome.networkError)) 1
  rw [List.takeWhile_append_dropWhile] at h
  rw [attemptedOf, ← h]

lemma sorted_attempted (push : PendingChange → PushOutcome) (q : List PendingChange) :
    List.Sorted (fun a b : PendingChange => a.timestamp ≤ b.timestamp)
      (attemptedOf push (sortByTimestamp q)) := by
  obtain ⟨n, hn⟩ := attemptedOf_prefix push (sortByTimestamp q)
  rw [hn]
  exact List.Pairwise.sublist (List.take_sublist n _) (sorted_sortByTimestamp q)

/-- C6 (counterexample): a queued change whose push fails with a
non-network-classified error is NOT dropped from the queue — after the
drain it is still queued for a later drain, refuting the claim's
"effectively dropped" clause. -/
theorem c6_counterexample_failed_entry_remains :
    ((fun _ : PendingChange => PushOutcome.otherError)
        (⟨"p1", ChangeType.update, ⟨"s", "N", "u"⟩, 5⟩ : PendingChange) ≠
      PushOutcome.networkError) ∧
    (processPendingChanges (fun _ => PushOutcome.otherError)
        [⟨"p1", ChangeType.update, ⟨"s", "N", "u"⟩, 5⟩]).queue =
      [⟨"p1", ChangeType.update, ⟨"s", "N", "u"⟩, 5⟩] := by
  constructor
  · intro h
    cases h
  · rw [processPendingChanges, if_neg (by simp)]
    rw [show sortByTimestamp [(⟨"p1", ChangeType.update, ⟨"s", "N", "u"⟩, 5⟩ : PendingChange)] =
      [⟨"p1", ChangeType.update, ⟨"s", "N", "u"⟩, 5⟩] from List.mergeSort_singleton _]
    rfl

/-- C6 (amended): during a drain, entries are processed in ascending
timestamp order; a non-network push failure is skipped (the drain
continues) but the failed entry REMAINS in the stored queue for a later
drain; a network-classified failure stops processing at that entry, and
exactly the successfully pushed entries are removed from the queue, so the
failed and unprocessed entries remain queued in their original order. -/
theorem c6_drain_order_and_error_handling (push : PendingChange → PushOutcome)
    (q : List PendingChange) :
    (processPendingChanges push q).attempted = attemptedOf push (sortByTimestamp q) ∧
    List.Sorted (fun a b : PendingChange => a.timestamp ≤ b.timestamp)
      ((processPendingChanges push q).attempted) ∧
    (processPendingChanges push q).queue =
      q.filter (fun x => !(successIds push (sortByTimestamp q)).contains x.id) ∧
    (processPendingChanges push q).networkAborted =
      (sortByTimestamp q).any (fun c => push c == PushOutcome.networkError) := by
  by_cases hq : q.isEmpty = true
  · have hq' : q = [] := List.isEmpty_iff.mp hq
    subst hq'
    rw [show sortByTimestamp ([] : List PendingChange) = [] from List.mergeSort_nil]
    exact ⟨rfl, List.sorted_nil, rfl, rfl⟩
  · rw [show processPendingChanges push q = drainLoop push (sortByTimestamp q) q from by
      rw [processPendingChanges, if_neg hq]]
    refine ⟨drainLoop_attempted push _ q, ?_, drainLoop_queue push _ q,
      drainLoop_networkAborted push _ q⟩
    rw [drainLoop_attempted push _ q]
    exact sorted_attempted push q

/-! ### Sync orchestrator: C7 -/

lemma syncStations_aborted {push : PendingChange → PushOutcome}
    {pending : List PendingChange} (download : RemoteResult (List Station))
    (upload : RemoteResult Unit) (localStations : List Station)
    (hab : (processPendingChanges push pending).networkAborted = true) :
    syncStations push pending download upload localStations =
      (⟨false, some offlineErrorMsg, localStations⟩, SyncState.offline) := by
  unfold syncStations
  rw [if_pos hab]

lemma syncStations_download_err {push : PendingChange → PushOutcome}
    {pending : List PendingChange} (upload : RemoteResult Unit)
    (localStations : List Station)
    (hab : (processPendingChanges push pending).networkAborted = false)
    (nw : Bool) (msg : String) :
    syncStations push pending (RemoteResult.err nw msg) upload localStations =
      if nw then (⟨false, some offlineErrorMsg, localStations⟩, SyncState.offline)
      else (⟨false, some msg, localStations⟩, SyncState.error) := by
  simp only [syncStations]
  rw [if_neg (by simp [hab])]

lemma syncStations_ok_ok {push : PendingChange → PushOutcome}
    {pending : List PendingChange}
    (hab : (processPendingChanges push pending).networkAborted = false)
    (cloudStations : List Station) (u : Unit) (localStations : List Station) :
    (syncStations push pending (RemoteResult.ok cloudStations)
      (RemoteResult.ok u) localStations).1.success = true ∧
    (syncStations push pending (RemoteResult.ok cloudStations)
      (RemoteResult.ok u) localStations).2 = SyncState.synced := by
  simp only [syncStations]
  rw [if_neg (by simp [hab])]
  split_ifs <;> exact ⟨rfl, rfl⟩

lemma syncStations_ok_err_empty {push : PendingChange → PushOutcome}
    {pending : List PendingChange} {localStations : List Station}
    (hab : (processPendingChanges push pending).networkAborted = false)
    (cloudStations : List Station) (hle : localStations.isEmpty = true)
    (nw : Bool) (msg : String) :
    (syncStations push pending (RemoteResult.ok cloudStations)
      (RemoteResult.err nw msg) localStations).1.success = true ∧
    (syncStations push pending (RemoteResult.ok cloudStations)
      (RemoteResult.err nw msg) localStations).2 = SyncState.synced := by
  simp only [syncStations]
  rw [if_neg (by simp [hab])]
  cases hce : cloudStations.isEmpty
  · rw [if_neg (by simp [hce]), if_neg (by simp [hce]), if_pos ⟨hle, by simp [hce]⟩]
    exact ⟨rfl, rfl⟩
  · rw [if_pos ⟨hle, rfl⟩]
    exact ⟨rfl, rfl⟩

lemma syncStations_ok_err_nonempty {push : PendingChange → PushOutcome}
    {pending : List PendingChange} {localStations : List Station}
    (hab : (processPendingChanges push pending).networkAborted = false)
    (cloudStations : List Station) (hle : localStations.isEmpty = false)
    (nw : Bool) (msg : String) :
    syncStations push pending (RemoteResult.ok cloudStations)
      (RemoteResult.err nw msg) localStations =
      if nw then (⟨false, some offlineErrorMsg, localStations⟩, SyncState.offline)
      else (⟨false, some msg, localStations⟩, SyncState.error) := by
  simp only [syncStations]
  rw [if_neg (by simp [hab])]
  cases hce : cloudStations.isEmpty
  · rw [if_neg (by simp [hle]), if_neg (by simp [hce]), if_neg (by simp [hle])]
  · rw [if_neg (by simp [hle]), if_pos ⟨by simp [hle], rfl⟩]

/-- C7: `syncStations` never ends a completed run in `syncing`; the final
state corresponds exactly to the outcome — a network-classified failure in
the initial queue drain or in the cloud download (and likewise in the
upload, when one is performed) ends in `offline` with a failure result
whose `mergedStations` is the input local list unchanged; a non-network
failure in the download or the upload ends in `error`, also preserving the
local list; and the run succeeds exactly when the final state is
`synced`. -/
theorem c7_sync_state_correspondence (push : PendingChange → PushOutcome)
    (pending : List PendingChange) (download : RemoteResult (List Station))
    (upload : RemoteResult Unit) (localStations : List Station) :
    (((processPendingChanges push pending).networkAborted = true ∨
        (∃ msg, download = RemoteResult.err true msg)) →
      (syncStations push pending download upload localStations).2 = SyncState.offline ∧
      (syncStations push pending download upload localStations).1.success = false ∧
      (syncStations push pending download upload localStations).1.mergedStations =
        localStations) ∧
    ((syncStations push pending download upload localStations).1.success = true ↔
      (syncStations push pending download upload localStations).2 = SyncState.synced) ∧
    ((processPendingChanges push pending).networkAborted = false →
      ∀ msg, download = RemoteResult.err false msg →
      (syncStations push pending download upload localStations).2 = SyncState.error ∧
      (syncStations push pending download upload localStations).1.success = false ∧
      (syncStations push pending download upload localStations).1.mergedStations =
        localStations ∧
      (syncStations push pending download upload localStations).1.error = some msg) ∧
    ((processPendingChanges push pending).networkAborted = false →
      ∀ cloudStations, download = RemoteResult.ok cloudStations →
      localStations ≠ [] →
      ∀ nw msg, upload = RemoteResult.err nw msg →
      (syncStations push pending download upload localStations).1.success = false ∧
      (syncStations push pending download upload localStations).1.mergedStations =
        localStations ∧
      (syncStations push pending download upload localStations).2 =
        (if nw then SyncState.offline else SyncState.error)) ∧
    ((syncStations push pending download upload localStations).2 = SyncState.synced ∨
     (syncStations push pending download upload localStations).2 = SyncState.offline ∨
     (syncStations push pending download upload localStations).2 = SyncState.error) := by
  refine ⟨?_, ?_, ?_, ?_, ?_⟩
  · intro h
    by_cases hab : (processPendingChanges push pending).networkAborted = true
    · rw [syncStations_aborted download upload localStations hab]
      exact ⟨rfl, rfl, rfl⟩
    · have hab2 : (processPendingChanges push pending).networkAborted = false := by
        revert hab
        cases (processPendingChanges push pending).networkAborted <;> simp
      rcases h with h | ⟨msg, hmsg⟩
      · exact absurd h hab
      · subst hmsg
        rw [syncStations_download_err upload localStations hab2 true msg, if_pos rfl]
        exact ⟨rfl, rfl, rfl⟩
  · by_cases hab : (processPendingChanges push pending).networkAborted = true
    · rw [syncStations_aborted download upload localStations hab]
      constructor <;> intro h <;> cases h
    · have hab2 : (processPendingChanges push pending).networkAborted = false := by
        revert hab
        cases (processPendingChanges push pending).networkAborted <;> simp
      rcases download with ⟨cloudStations⟩ | ⟨nw, msg⟩
      · rcases upload with ⟨u⟩ | ⟨nw, msg⟩
        · obtain ⟨h1, h2⟩ := syncStations_ok_ok hab2 cloudStations u localStations
          rw [h1, h2]
          simp
        · cases hle : localStations.isEmpty
          · rw [syncStations_ok_err_nonempty hab2 cloudStations hle nw msg]
            cases nw <;> simp
          · obtain ⟨h1, h2⟩ := syncStations_ok_err_empty hab2 cloudStations hle nw msg
            rw [h1, h2]
            simp
      · rw [syncStations_download_err upload localStations hab2 nw msg]
        cases nw <;> simp
  · intro hab2 msg hmsg
    subst hmsg
    rw [syncStations_download_err upload localStations hab2 false msg,
      if_neg (by simp)]
    exact ⟨rfl, rfl, rfl, rfl⟩
  · intro hab2 cloudStations hdl hne nw msg hup
    subst hdl
    subst hup
    have hle : localStations.isEmpty = false := by
      cases h : localStations.isEmpty
      · rfl
      · exact absurd (List.isEmpty_iff.mp h) hne
    rw [syncStations_ok_err_nonempty hab2 cloudStations hle nw msg]
    cases nw
    · rw [if_neg (by simp), if_neg (by simp)]
      exact ⟨rfl, rfl, rfl⟩
    · rw [if_pos rfl, if_pos rfl]
      exact ⟨rfl, rfl, rfl⟩
  · by_cases hab : (processPendingChanges push pending).networkAborted = true
    · rw [syncStations_aborted download upload localStations hab]
      right; left; rfl
    · have hab2 : (processPendingChanges push pending).networkAborted = false := by
        revert hab
        cases (processPendingChanges push pending).networkAborted <;> simp
      rcases download with ⟨cloudStations⟩ | ⟨nw, msg⟩
      · rcases upload with ⟨u⟩ | ⟨nw, msg⟩
        · obtain ⟨-, h2⟩ := syncStations_ok_ok hab2 cloudStations u localStations
          rw [h2]
          left; rfl
        · cases hle : localStations.isEmpty
          · rw [syncStations_ok_err_nonempty hab2 cloudStations hle nw msg]
            cases nw
            · right; right; rfl
            · right; left; rfl
          · obtain ⟨-, h2⟩ := syncStations_ok_err_empty hab2 cloudStations hle nw msg
            rw [h2]
            left; rfl
      · rw [syncStations_download_err upload localStations hab2 nw msg]
        cases nw
        · right; right; rfl
        · right; left; rfl

/-- C7 witness: concrete runs exercising the correspondence — a download
rejected with a network-classified error ends `offline` preserving the
local list; a non-network download failure ends `error` preserving the
local list; an upload rejected with a network-classified error (local list
non-empty) ends `offline` preserving the local list. -/
theorem c7_sync_state_correspondence_witness :
    ((syncStations (fun _ => PushOutcome.success) []
        (RemoteResult.err true "network request failed") (RemoteResult.ok ())
        [⟨"1", "A", "http://x.fm"⟩]).2 = SyncState.offline ∧
      (syncStations (fun _ => PushOutcome.success) []
        (RemoteResult.err true "network request failed") (RemoteResult.ok ())
        [⟨"1", "A", "http://x.fm"⟩]).1.success = false ∧
      (syncStations (fun _ => PushOutcome.success) []
        (RemoteResult.err true "network request failed") (RemoteResult.ok ())
        [⟨"1", "A", "http://x.fm"⟩]).1.mergedStations = [⟨"1", "A", "http://x.fm"⟩]) ∧
    ((syncStations (fun _ => PushOutcome.success) []
        (RemoteResult.err false "permission denied") (RemoteResult.ok ())
        [⟨"1", "A", "http://x.fm"⟩]).2 = SyncState.error ∧
      (syncStations (fun _ => PushOutcome.success) []
        (RemoteResult.err false "permission denied") (RemoteResult.ok ())
        [⟨"1", "A", "http://x.fm"⟩]).1.mergedStations = [⟨"1", "A", "http://x.fm"⟩]) ∧
    ((syncStations (fun _ => PushOutcome.success) []
        (RemoteResult.ok [⟨"2", "B", "http://y.fm"⟩])
        (RemoteResult.err true "network unavailable")
        [⟨"1", "A", "http://x.fm"⟩]).2 = SyncState.offline ∧
      (syncStations (fun _ => PushOutcome.success) []
        (RemoteResult.ok [⟨"2", "B", "http://y.fm"⟩])
        (RemoteResult.err true "network unavailable")
        [⟨"1", "A", "http://x.fm"⟩]).1.mergedStations = [⟨"1", "A", "http://x.fm"⟩]) := by
  refine ⟨?_, ?_, ?_⟩
  · exact (c7_sync_state_correspondence (fun _ => PushOutcome.success) []
      (RemoteResult.err true "network request failed") (RemoteResult.ok ())
      [⟨"1", "A", "http://x.fm"⟩]).1 (Or.inr ⟨"network request failed", rfl⟩)
  · have h := (c7_sync_state_correspondence (fun _ => PushOutcome.success) []
      (RemoteResult.err false "permission denied") (RemoteResult.ok ())
      [⟨"1", "A", "http://x.fm"⟩]).2.2.1 rfl "permission denied" rfl
    exact ⟨h.1, h.2.2.1⟩
  · have h := (c7_sync_state_correspondence (fun _ => PushOutcome.success) []
      (RemoteResult.ok [⟨"2", "B", "http://y.fm"⟩])
      (RemoteResult.err true "network unavailable")
      [⟨"1", "A", "http://x.fm"⟩]).2.2.2.1 rfl [⟨"2", "B", "http://y.fm"⟩] rfl
      (by simp) true "network unavailable" rfl
    exact ⟨by rw [h.2.2]; rfl, h.2.1⟩

/-! ### Retry executor lemmas: C8 -/

lemma retryGo_unfold {E A : Type} (op : Nat → Except E A)
    (baseDelay attempt fuel : Nat) :
    retryGo op baseDelay attempt fuel =
      match op attempt with
      | Except.ok a => (Except.ok a, [])
      | Except.error e =>
        match fuel with
        | 0 => (Except.error e, [])
        | fuel' + 1 =>
          let r := retryGo op baseDelay (attempt + 1) fuel'
          (r.1, baseDelay * 2 ^ attempt :: r.2) := by
  rw [retryGo.eq_def]

lemma retryGo_ok {E A : Type} {op : Nat → Except E A} {a : A} {attempt : Nat}
    (h : op attempt = Except.ok a) (baseDelay fuel : Nat) :
    retryGo op baseDelay attempt fuel = (Except.ok a, []) := by
  rw [retryGo_unfold, h]

lemma retryGo_error_zero {E A : Type} {op : Nat → Except E A} {e : E} {attempt : Nat}
    (h : op attempt = Except.error e) (baseDelay : Nat) :
    retryGo op baseDelay attempt 0 = (Except.error e, []) := by
  rw [retryGo_unfold, h]

lemma retryGo_error_succ {E A : Type} {op : Nat → Except E A} {e : E} {attempt : Nat}
    (h : op attempt = Except.error e) (baseDelay fuel : Nat) :
    retryGo op baseDelay attempt (fuel + 1) =
      ((retryGo op baseDelay (attempt + 1) fuel).1,
        baseDelay * 2 ^ attempt :: (retryGo op baseDelay (attempt + 1) fuel).2) := by
  rw [retryGo_unfold, h]

/-- C8: with the configured defaults (`maxRetries = 3`,
`baseRetryDelay = 1000` ms), `withRetry` invokes the operation, sleeps
`1000 * 2 ^ attempt` ms after each failed attempt with retries remaining
(1 s, 2 s, 4 s), returns a successful attempt's result immediately (the
delay list — one sleep per re-invocation — stops there), and returns the
final failing attempt's error after exactly the three sleeps, with no
further delay. -/
theorem c8_with_retry_backoff {E A : Type} (op : Nat → Except E A) (k : Nat)
    (hk : k ≤ 3) (hfail : ∀ i, i < k → ∃ e, op i = Except.error e) :
    syncConfigMaxRetries = 3 ∧ syncConfigBaseRetryDelay = 1000 ∧
    (∀ a, op k = Except.ok a →
      withRetry op syncConfigMaxRetries syncConfigBaseRetryDelay =
        (Except.ok a, (List.range k).map (fun i => 1000 * 2 ^ i))) ∧
    (∀ e, k = 3 → op 3 = Except.error e →
      withRetry op syncConfigMaxRetries syncConfigBaseRetryDelay =
        (Except.error e, [1000, 2000, 4000])) := by
  refine ⟨rfl, rfl, ?_, ?_⟩
  · intro a ha
    interval_cases k
    · rw [show withRetry op syncConfigMaxRetries syncConfigBaseRetryDelay =
        retryGo op 1000 0 3 from rfl, retryGo_ok ha]
      rfl
    · obtain ⟨e0, he0⟩ := hfail 0 (by omega)
      rw [show withRetry op syncConfigMaxRetries syncConfigBaseRetryDelay =
        retryGo op 1000 0 3 from rfl, retryGo_error_succ he0, retryGo_ok ha]
      rfl
    · obtain ⟨e0, he0⟩ := hfail 0 (by omega)
      obtain ⟨e1, he1⟩ := hfail 1 (by omega)
      rw [show withRetry op syncConfigMaxRetries syncConfigBaseRetryDelay =
        retryGo op 1000 0 3 from rfl, retryGo_error_succ he0, retryGo_error_succ he1,
        retryGo_ok ha]
      rfl
    · obtain ⟨e0, he0⟩ := hfail 0 (by omega)
      obtain ⟨e1, he1⟩ := hfail 1 (by omega)
      obtain ⟨e2, he2⟩ := hfail 2 (by omega)
      rw [show withRetry op syncConfigMaxRetries syncConfigBaseRetryDelay =
        retryGo op 1000 0 3 from rfl, retryGo_error_succ he0, retryGo_error_succ he1,
        retryGo_error_succ he2, retryGo_ok ha]
      rfl
  · intro e hk3 h3
    subst hk3
    obtain ⟨e0, he0⟩ := hfail 0 (by omega)
    obtain ⟨e1, he1⟩ := hfail 1 (by omega)
    obtain ⟨e2, he2⟩ := hfail 2 (by omega)
    rw [show withRetry op syncConfigMaxRetries syncConfigBaseRetryDelay =
      retryGo op 1000 0 3 from rfl, retryGo_error_succ he0, retryGo_error_succ he1,
      retryGo_error_succ he2, retryGo_error_zero h3]
    rfl

/-- C8 witness: an operation failing twice then succeeding returns the
success after sleeping 1 s and 2 s; an always-failing operation returns
the last error after sleeping 1 s, 2 s and 4 s. -/
theorem c8_with_retry_backoff_witness :
    withRetry (fun i => if i < 2 then Except.error "e" else Except.ok 42)
      syncConfigMaxRetries syncConfigBaseRetryDelay = (Except.ok 42, [1000, 2000]) ∧
    withRetry (fun _ : Nat => (Except.error "e" : Except String Nat))
      syncConfigMaxRetries syncConfigBaseRetryDelay =
      (Except.error "e", [1000, 2000, 4000]) := by
  constructor
  · have h := (c8_with_retry_backoff
      (fun i => if i < 2 then Except.error "e" else Except.ok 42) 2 (by omega)
      (fun i hi => ⟨"e", by interval_cases i <;> rfl⟩)).2.2.1 42 rfl
    rw [h]
    rfl
  · exact (c8_with_retry_backoff (fun _ : Nat => (Except.error "e" : Except String Nat))
      3 (by omega) (fun i _ => ⟨"e", rfl⟩)).2.2.2 "e" rfl rfl

end Radiolla
